import Mathlib

/-!
# Verification of the `gh_pre-commit` linter-report utilities

A shallow embedding, in Lean 4, of the three Python modules
`linter_stats_to_json.py`, `generate_linter_report.py` and
`precommit_tool_finder.py`, together with proofs about the behaviour that
the repository's specification describes.

Conventions of the embedding:
* Python strings are modelled as `String` / `List Char`; the Python
  string primitives actually used by the source (`str.strip`,
  `str.split(None, maxsplit)`, `str.split(sep)`, `int(...)`, `in`) are
  re-implemented faithfully for ASCII input below.
* A text file is modelled as `Option (List String)` — `none` for a file
  missing on disk, otherwise the list of its lines (line terminators
  stripped, as the source immediately calls `str.strip` on each line).
* Fallible Python code (functions returning `None` on failure, raised
  exceptions) becomes `Option` / `Except`.
-/

namespace BashConfig

/-! ## Python string primitives -/

/-- The ASCII whitespace characters recognised by Python's `str.strip` /
`str.split(None)` (the inputs this tool handles are ASCII). -/
def isPyWs (c : Char) : Bool :=
  c = ' ' || c = '\t' || c = '\n' || c = '\r' || c = '\x0b' || c = '\x0c'

/-- Python `s.strip()` on a character list. -/
def pyStrip (s : List Char) : List Char :=
  ((s.dropWhile isPyWs).reverse.dropWhile isPyWs).reverse

/-- Python `s.strip()` on a `String`. -/
def pyStripStr (s : String) : String :=
  String.mk (pyStrip s.data)

/-- Python `s.split(None, maxsplit)`: runs of whitespace separate tokens,
leading whitespace is skipped, and once `maxsplit` tokens have been taken
the remainder of the string (with its leading whitespace removed, trailing
whitespace kept) is the final element; an empty or all-whitespace tail
contributes nothing. -/
def pySplitWs : Nat → List Char → List (List Char)
  | maxsplit, s =>
    match s.dropWhile isPyWs with
    | [] => []
    | c :: rest =>
      match maxsplit with
      | 0 => [c :: rest]
      | m + 1 =>
        ((c :: rest).takeWhile (fun d => !isPyWs d)) ::
          pySplitWs m ((c :: rest).dropWhile (fun d => !isPyWs d))

/-- Python `s.split(sep)` for a one-character separator (the source's
`parse_line_with_count_code_desc` is only ever called with `sep = None`
or `sep = '\t'`, so a single-character separator is the exact use).
Note there is no `maxsplit`: every occurrence splits. -/
def pySplitChar (sep : Char) : List Char → List (List Char)
  | [] => [[]]
  | c :: rest =>
    if c = sep then [] :: pySplitChar sep rest
    else
      match pySplitChar sep rest with
      | [] => [[c]]
      | t :: ts => (c :: t) :: ts

/-- Digit part of a Python `int` literal: ASCII digits with single
underscores allowed between digit groups (`1_000`), rejecting leading,
trailing or doubled underscores.  The `Bool` argument records whether a
digit is still required before the next underscore / the end (true at the
start and right after an underscore). -/
def pyDigits : Nat → Bool → List Char → Option Nat
  | acc, false, [] => some acc
  | _, true, [] => none
  | acc, needDigit, c :: rest =>
    if c.isDigit then pyDigits (10 * acc + (c.toNat - 48)) false rest
    else if c = '_' then
      if needDigit then none else pyDigits acc true rest
    else none

/-- Python `int(s)` on an already-stripped string (every call site in the
source strips its argument first): an optional sign followed by an ASCII
digit part; `none` models the `ValueError` Python raises otherwise. -/
def pyInt? (s : List Char) : Option Int :=
  match s with
  | '+' :: rest => (pyDigits 0 true rest).map Int.ofNat
  | '-' :: rest => (pyDigits 0 true rest).map (fun n => -Int.ofNat n)
  | rest => (pyDigits 0 true rest).map Int.ofNat

/-- Python `pat in s` (substring containment). -/
def containsSub (s pat : String) : Bool :=
  decide (pat.data <:+: s.data)

/-- Scanner for `pySplitOnStr`: structural recursion on a fuel of one
unit per input character (each step consumes at least one character, so
the fuel — initialised to the input length — never runs out; the fuel
branch only makes the recursion structural). -/
def splitOnGo (sep : List Char) : Nat → List Char → List Char → List (List Char)
  | 0, acc, rest => [acc.reverse ++ rest]
  | _ + 1, acc, [] => [acc.reverse]
  | fuel + 1, acc, c :: rest =>
    if sep.isPrefixOf (c :: rest) then
      acc.reverse :: splitOnGo sep fuel [] ((c :: rest).drop sep.length)
    else splitOnGo sep fuel (c :: acc) rest

/-- Python `s.split(sep)` for a non-empty separator string: split at
every non-overlapping left-to-right occurrence of `sep`. -/
def pySplitOnStr (sep s : String) : List String :=
  match sep.data with
  | [] => [s]
  | s0 :: stail => (splitOnGo (s0 :: stail) s.data.length [] s.data).map String.mk

/-! ## `linter_stats_to_json.py` — data model and parsers -/

/-- One parsed linter error line: the dictionaries built by
`parse_line_with_count_code_desc` / `parse_mypy`, with keys
`linter`, `count`, `code`, `description`. -/
structure LinterRecord where
  linter : String
  count : Int
  code : String
  description : String
deriving DecidableEq, Repr

/-- The `MYPY_DESCRIPTIONS` table of `linter_stats_to_json.py`. -/
def MYPY_DESCRIPTIONS : List (String × String) :=
  [("no-untyped-def", "Function is missing a type annotation"),
   ("attr-defined", "Attribute does not exist on type"),
   ("arg-type", "Argument has incompatible type"),
   ("import-not-found", "Cannot find implementation or library stub"),
   ("var-annotated", "Variable needs type annotation"),
   ("union-attr", "Item 'None' of 'Optional[...]' has no attribute"),
   ("import-untyped", "Import is not typed or missing type hints"),
   ("assignment", "Incompatible types in assignment"),
   ("call-overload", "No overload variant matches argument types"),
   ("return-value", "Incompatible return value type"),
   ("type-arg", "Type argument is incompatible"),
   ("misc", "Miscellaneous type error")]

/-- `MYPY_DESCRIPTIONS.get(code, '-')`. -/
def mypyDescription (code : String) : String :=
  ((MYPY_DESCRIPTIONS.find? (fun kv => kv.1 == code)).map (·.2)).getD "-"

/-- `parse_line_with_count_code_desc(line, linter_name, separator)`:
strip the line, split it (whitespace with `maxsplit=2` when
`separator is None`, else on every occurrence of the separator
character), require at least two fields, parse the first as an int;
the description is the third field when present, `'-'` otherwise.
`none` models both the `return None` paths and the caught `ValueError`. -/
def parse_line_with_count_code_desc (line : String) (linter_name : String)
    (separator : Option Char) : Option LinterRecord :=
  let l := pyStrip line.data
  if l = [] then none
  else
    let parts :=
      match separator with
      | some sep => pySplitChar sep l
      | none => pySplitWs 2 l
    if parts.length < 2 then none
    else
      let count := pyStrip (parts.getD 0 [])
      let code := pyStrip (parts.getD 1 [])
      let description :=
        if 2 < parts.length then pyStrip (parts.getD 2 []) else ['-']
      match pyInt? count with
      | some n => some ⟨linter_name, n, String.mk code, String.mk description⟩
      | none => none

/-- `parse_flake8`: missing file gives `[]`; otherwise each line is parsed
with whitespace separation and falsy (`None`) results are dropped. -/
def parse_flake8 (file : Option (List String)) : List LinterRecord :=
  match file with
  | none => []
  | some lines =>
    lines.filterMap (fun l => parse_line_with_count_code_desc l "flake8" none)

/-- `parse_ruff`: as `parse_flake8` but tab-separated. -/
def parse_ruff (file : Option (List String)) : List LinterRecord :=
  match file with
  | none => []
  | some lines =>
    lines.filterMap (fun l => parse_line_with_count_code_desc l "ruff" (some '\t'))

/-- The body of `parse_mypy`'s per-line loop: strip, skip empty lines,
split once on whitespace, require exactly two fields, parse the count and
look the code up in `MYPY_DESCRIPTIONS` (default `'-'`). -/
def parse_mypy_line (l : String) : Option LinterRecord :=
  let line := pyStrip l.data
  if line = [] then none
  else
    match pySplitWs 1 line with
    | [count_str, error_code] =>
      match pyInt? (pyStrip count_str) with
      | some n =>
        let code := String.mk (pyStrip error_code)
        some ⟨"mypy", n, code, mypyDescription code⟩
      | none => none
    | _ => none

/-- `parse_mypy`: missing file gives `[]`; otherwise the per-line loop. -/
def parse_mypy (file : Option (List String)) : List LinterRecord :=
  match file with
  | none => []
  | some lines => lines.filterMap parse_mypy_line

/-- The `{'linters': {'flake8': ..., 'ruff': ..., 'mypy': ...}}` value
built by `convert_stats_to_json`. -/
structure LinterDataset where
  flake8 : List LinterRecord
  ruff : List LinterRecord
  mypy : List LinterRecord
deriving DecidableEq, Repr

/-- The three raw stats files of a raw directory
(`flake8_stats_raw.txt`, `ruff_stats_raw.txt`, `mypy_stats_raw.txt`),
each `none` when missing on disk. -/
structure RawStatsFiles where
  flake8_raw : Option (List String)
  ruff_raw : Option (List String)
  mypy_raw : Option (List String)

/-- `convert_stats_to_json` (the dataset it writes out; the JSON encoding
itself is `datasetToJson` below). -/
def convert_stats_to_json (raw : RawStatsFiles) : LinterDataset :=
  { flake8 := parse_flake8 raw.flake8_raw
    ruff := parse_ruff raw.ruff_raw
    mypy := parse_mypy raw.mypy_raw }

/-! ## JSON document model

`write_json` serialises the dataset with `json.dump` and
`load_json_data` reads it back with `json.load`.  For the value shapes
this program produces (nested dicts/lists of `str`/`int`), `json.dump`
followed by `json.load` is the identity on the document tree, so the
round trip is modelled at the level of JSON trees. -/

/-- A JSON value (object fields carry insertion order, as Python dicts do). -/
inductive JVal where
  | jnull
  | jbool (b : Bool)
  | jint (n : Int)
  | jstr (s : String)
  | jarr (elems : List JVal)
  | jobj (fields : List (String × JVal))

/-- Key lookup on a JSON object (`obj[k]` / `obj.get(k)`); the documents
this program writes never repeat a key, so first-match lookup is exact. -/
def jGet (j : JVal) (k : String) : Option JVal :=
  match j with
  | .jobj fields => (fields.find? (fun kv => kv.1 == k)).map (·.2)
  | _ => none

/-- The JSON object for one record, keys in the insertion order of
`parse_line_with_count_code_desc`. -/
def recordToJson (r : LinterRecord) : JVal :=
  .jobj [("linter", .jstr r.linter), ("count", .jint r.count),
         ("code", .jstr r.code), ("description", .jstr r.description)]

/-- The document `write_json` persists:
`{"linters": {"flake8": [...], "ruff": [...], "mypy": [...]}}`. -/
def datasetToJson (d : LinterDataset) : JVal :=
  .jobj [("linters", .jobj
    [("flake8", .jarr (d.flake8.map recordToJson)),
     ("ruff", .jarr (d.ruff.map recordToJson)),
     ("mypy", .jarr (d.mypy.map recordToJson))])]

/-- Reading one record back out of the loaded document, via the field
accesses `error['linter']`, `error['count']`, `error['code']`,
`error['description']` performed by `generate_linter_report.py`. -/
def recordFromJson (j : JVal) : Option LinterRecord :=
  match jGet j "linter", jGet j "count", jGet j "code", jGet j "description" with
  | some (.jstr l), some (.jint n), some (.jstr c), some (.jstr d) =>
    some ⟨l, n, c, d⟩
  | _, _, _, _ => none

/-- Reading a list of records element by element (the loop
`for error in linter_data['linters'][name]` with its field accesses). -/
def decodeRecords : List JVal → Option (List LinterRecord)
  | [] => some []
  | j :: rest =>
    match recordFromJson j, decodeRecords rest with
    | some r, some t => some (r :: t)
    | _, _ => none

/-- Reading a linter's record list back out of the loaded document. -/
def recordsFromJson (j : JVal) : Option (List LinterRecord) :=
  match j with
  | .jarr elems => decodeRecords elems
  | _ => none

/-- Reading the whole dataset back out of the loaded document, via the
accesses `linter_data['linters']['flake8' | 'ruff' | 'mypy']`. -/
def datasetFromJson (j : JVal) : Option LinterDataset :=
  match jGet j "linters" with
  | some linters =>
    match jGet linters "flake8", jGet linters "ruff", jGet linters "mypy" with
    | some f, some r, some m =>
      match recordsFromJson f, recordsFromJson r, recordsFromJson m with
      | some fl, some ru, some my => some ⟨fl, ru, my⟩
      | _, _, _ => none
    | _, _, _ => none
  | none => none

/-! ## `generate_linter_report.py` -/

/-- `SEPARATOR = '-' * 80`. -/
def SEPARATOR : String := String.mk (List.replicate 80 '-')

/-- The descending-by-count order the report tables use. -/
def countGe (a b : LinterRecord) : Prop := b.count ≤ a.count

instance : DecidableRel countGe := fun a b => Int.decLe b.count a.count

instance : IsTotal LinterRecord countGe := ⟨fun a b => le_total b.count a.count⟩

instance : IsTrans LinterRecord countGe := ⟨fun _ _ _ hab hbc => le_trans hbc hab⟩

/-- `sorted(linter_errors, key=lambda x: x['count'], reverse=True)`.
Python's sort is stable also under `reverse=True`, and a stable sort by a
fixed key order is uniquely determined, so the (stable) insertion sort
with relation `countGe a b := b.count ≤ a.count` computes exactly the
same list. -/
def sortByCountDesc (errors : List LinterRecord) : List LinterRecord :=
  errors.insertionSort countGe

/-- One table row of the combined report. -/
def recordRow (r : LinterRecord) : String :=
  s!"| {r.linter} | {r.code} | {r.description} | {r.count} |\n"

/-- `create_individual_linter_table`. -/
def create_individual_linter_table (linter_name : String)
    (linter_errors : List LinterRecord) : String :=
  if linter_errors = [] then
    s!"## {linter_name}\n\nNo errors found.\n\n"
  else
    let sorted_errors := sortByCountDesc linter_errors
    let total_count := (sorted_errors.map (·.count)).sum
    s!"## {linter_name}\n\n"
      ++ "| Hook | Error Code | Description | Count |\n"
      ++ "|------|------------|-------------|------:|\n"
      ++ String.join (sorted_errors.map recordRow)
      ++ s!"\n**Total: {total_count} errors**\n\n"

/-- The per-linter sections of `create_combined_report`, in the order the
source emits them: Ruff, Flake8, Mypy. -/
def combinedSections (d : LinterDataset) : List (String × List LinterRecord) :=
  [("Ruff", d.ruff), ("Flake8", d.flake8), ("Mypy", d.mypy)]

/-- `create_combined_report`: header, then the three linter tables
separated by the 80-dash rule. -/
def create_combined_report (d : LinterDataset) : String :=
  "# Pre-commit Error Statistics\n\n"
    ++ String.intercalate (SEPARATOR ++ "\n\n")
        ((combinedSections d).map fun s => create_individual_linter_table s.1 s.2)

/-- One entry of `LOW_RISK_FIX_CATEGORIES`. -/
structure RiskCategory where
  name : String
  patterns : List String
  risk : String
  fix_kind : String
deriving Repr

/-- The `LOW_RISK_FIX_CATEGORIES` table, in declaration order. -/
def LOW_RISK_FIX_CATEGORIES : List RiskCategory :=
  [⟨"Formatting/Style", ["T201", "D205", "D415", "D200", "E203", "E261", "E127"],
    "Very Low", "Formatting/style changes"⟩,
   ⟨"Dead/Commented Code", ["ERA001", "E800"],
    "Very Low", "Remove commented code"⟩,
   ⟨"Simple Refactoring", ["SIM201", "SIM108", "PIE810", "PERF401", "RET504", "R504"],
    "Low", "Simple logic improvements"⟩]

/-- `categorize_error_for_low_risk_fixes`: first category (in declaration
order) whose pattern set contains the code, else `None`. -/
def categorize_error_for_low_risk_fixes (error_code : String) : Option String :=
  (LOW_RISK_FIX_CATEGORIES.find? (fun cat => cat.patterns.contains error_code)).map (·.name)

/-- The `categorized_errors` buckets of `create_low_risk_fixes_report`:
for each category (declaration order) the records, ruff first then
flake8 (mypy is never visited), whose code categorises to it. -/
def lowRiskBuckets (d : LinterDataset) : List (String × List LinterRecord) :=
  LOW_RISK_FIX_CATEGORIES.map fun cat =>
    (cat.name, (d.ruff ++ d.flake8).filter
      (fun e => categorize_error_for_low_risk_fixes e.code == some cat.name))

/-- The rendered sections of the low-risk report: empty buckets are
skipped, non-empty ones are sorted by count descending. -/
def lowRiskSections (d : LinterDataset) : List (String × List LinterRecord) :=
  (lowRiskBuckets d).filterMap fun nb =>
    if nb.2 = [] then none else some (nb.1, sortByCountDesc nb.2)

/-- One table row of the low-risk report. -/
def lowRiskRow (r : LinterRecord) : String :=
  s!"| {r.code} | {r.description} | {r.linter} | {r.count} |\n"

/-- `create_low_risk_fixes_report`. -/
def create_low_risk_fixes_report (d : LinterDataset) : String :=
  "# Low Risk Errors\n\n"
    ++ String.join ((lowRiskSections d).map fun sec =>
        s!"## {sec.1}\n\n"
          ++ "| Error Code | Description | Linter | Count |\n"
          ++ "|------------|-------------|--------|------:|\n"
          ++ String.join (sec.2.map lowRiskRow)
          ++ s!"\n{SEPARATOR}\n\n")

/-! ## `precommit_tool_finder.py` -/

/-- One row of the `repos` table of the pre-commit cache database. -/
structure DbRow where
  repo : String
  rev : String
  path : String

/-- The parts of the outside world `get_tool_path` consults: whether the
project has a `.git` directory, the `.pre-commit-config.yaml` file
(existence and lines), the cache database (existence and rows), and
which paths exist on disk. -/
structure FinderEnv where
  git_dir_present : Bool
  config_present : Bool
  config_lines : List String
  db_present : Bool
  db_rows : List DbRow
  path_on_disk : String → Bool

/-- `is_git_repository`. -/
def is_git_repository (env : FinderEnv) : Bool :=
  env.git_dir_present

/-- The scanning loop of `grep -A n pattern`: `due` counts how many
trailing-context lines are still owed.  A matching line is printed and
resets the counter to `n`; a non-matching line is printed while the
counter is positive.  (GNU grep's `--` group separators are omitted from
the model: the two callers only test output lines for `python:` /
`rev:`, and a separator line never contains either.) -/
def grepA (n : Nat) (pat : String) : Nat → List String → List String
  | _, [] => []
  | due, l :: rest =>
    if containsSub l pat then l :: grepA n pat n rest
    else if 0 < due then l :: grepA n pat (due - 1) rest
    else grepA n pat due rest

/-- `grep -A n pattern file`: the lines printed, in input order — every
line containing `pattern` together with up to `n` lines of trailing
context. -/
def grepAfterContext (n : Nat) (pat : String) (lines : List String) : List String :=
  grepA n pat 0 lines

/-- `get_python_version_from_config`: raises on a non-git project, treats
a missing config as not-found, then greps for `default_language_version:`
with one line of trailing context (`grep -A 1`) and extracts the text
after the first `python:` in the grep output.  (grep's exit status 1 on
no match makes the loop body unreachable; that is the same outcome as an
empty output, so the model just scans the — then empty — output.) -/
def get_python_version_from_config (env : FinderEnv) :
    Except String (Option String) :=
  if !is_git_repository env then .error "Not a git repository"
  else if !env.config_present then .ok none
  else
    let out := grepAfterContext 1 "default_language_version:" env.config_lines
    match out.find? (fun line => containsSub line "python:") with
    | some line => .ok (some (pyStripStr ((pySplitOnStr "python:" line).getD 1 "")))
    | none => .ok none

/-- `get_tool_version_from_config`: as above with `grep -A 3 repo_pattern`
and key `rev:`. -/
def get_tool_version_from_config (env : FinderEnv) (repo_pattern : String) :
    Except String (Option String) :=
  if !is_git_repository env then .error "Not a git repository"
  else if !env.config_present then .ok none
  else
    let out := grepAfterContext 3 repo_pattern env.config_lines
    match out.find? (fun line => containsSub line "rev:") with
    | some line => .ok (some (pyStripStr ((pySplitOnStr "rev:" line).getD 1 "")))
    | none => .ok none

/-- `query_precommit_db`: missing database gives not-found; otherwise
`SELECT path FROM repos WHERE repo LIKE '%pattern%' AND ref = version`
(for the wildcard-free patterns the callers pass, `LIKE '%p%'` is
substring containment) and the last row of the result set. -/
def query_precommit_db (env : FinderEnv) (repo_pattern version : String) :
    Option String :=
  if !env.db_present then none
  else
    ((env.db_rows.filter fun row =>
        containsSub row.repo repo_pattern && row.rev == version).getLast?).map (·.path)

/-- Python truthiness of an optional string (`if not x:` is taken for
both `None` and the empty string). -/
def pyFalsy : Option String → Bool
  | none => true
  | some s => s == ""

/-- `get_tool_path`: validate the git repository first (raising
otherwise), then thread the python version, the tool revision, the
database row and the final existence check, each failure returning
`None`. -/
def get_tool_path (env : FinderEnv) (repo_pattern tool_name : String) :
    Except String (Option String) :=
  if !is_git_repository env then .error "Not a git repository"
  else
    match get_python_version_from_config env with
    | .error e => .error e
    | .ok pv =>
      if pyFalsy pv then .ok none
      else
        match get_tool_version_from_config env repo_pattern with
        | .error e => .error e
        | .ok tv =>
          if pyFalsy tv then .ok none
          else
            let db_pattern :=
              if containsSub repo_pattern "/" then
                ((pySplitOnStr "/" repo_pattern).getLastD repo_pattern)
              else repo_pattern
            match query_precommit_db env db_pattern (tv.getD "") with
            | none => .ok none
            | some repo_path =>
              if repo_path == "" then .ok none
              else
                let full_path :=
                  repo_path ++ "/py_env-" ++ pv.getD "" ++ "/bin/" ++ tool_name
                if env.path_on_disk full_path then .ok (some full_path)
                else .ok none

/-! ## Derived notions used by the claims -/

/-- The field list `parts` computed by `parse_line_with_count_code_desc`
for a given separator. -/
def lineParts (separator : Option Char) (line : String) : List (List Char) :=
  match separator with
  | some sep => pySplitChar sep (pyStrip line.data)
  | none => pySplitWs 2 (pyStrip line.data)

/-- The stripped first field of a line (`parts[0].strip()`). -/
def firstField (separator : Option Char) (line : String) : List Char :=
  pyStrip ((lineParts separator line).getD 0 [])

/-- A flake8/ruff raw line is well-formed when it has the expected field
arity (at least two fields) and an integer first field. -/
def lineWellFormed (separator : Option Char) (line : String) : Bool :=
  2 ≤ (lineParts separator line).length && (pyInt? (firstField separator line)).isSome

/-- The code field a well-formed flake8/ruff line parses to. -/
def lineCode (separator : Option Char) (line : String) : Option String :=
  if lineWellFormed separator line then
    some (String.mk (pyStrip ((lineParts separator line).getD 1 [])))
  else none

/-- A mypy raw line is well-formed when it has exactly two
whitespace-separated fields (after one split) and an integer first field. -/
def mypyWellFormed (line : String) : Bool :=
  match pySplitWs 1 (pyStrip line.data) with
  | [count_str, _] => (pyInt? (pyStrip count_str)).isSome
  | _ => false

/-- The code field a well-formed mypy line parses to. -/
def mypyLineCode (line : String) : Option String :=
  match pySplitWs 1 (pyStrip line.data) with
  | [count_str, error_code] =>
    if (pyInt? (pyStrip count_str)).isSome then
      some (String.mk (pyStrip error_code))
    else none
  | _ => none

/-- All records of a dataset, in the order the JSON document lists them. -/
def allRecords (d : LinterDataset) : List LinterRecord :=
  d.flake8 ++ d.ruff ++ d.mypy

/-- The uniqueness invariant claimed for datasets: no two records share
the same (linter, code) pair. -/
def UniquePerLinterCode (d : LinterDataset) : Prop :=
  (allRecords d).Pairwise (fun a b => ¬(a.linter = b.linter ∧ a.code = b.code))

/-- The pattern set of the low-risk category with a given name. -/
def patternsFor (nm : String) : List String :=
  ((LOW_RISK_FIX_CATEGORIES.find? (fun cat => cat.name == nm)).map (·.patterns)).getD []

/-! ## Helper lemmas about the Python string primitives -/

theorem pySplitWs_nil (m : Nat) : pySplitWs m [] = [] := by
  cases m <;> rfl

theorem pySplitChar_ne_nil (sep : Char) (s : List Char) :
    pySplitChar sep s ≠ [] := by
  cases s with
  | nil => simp [pySplitChar]
  | cons c rest =>
    simp only [pySplitChar]
    split
    · simp
    · split <;> simp

/-- `parse_line_with_count_code_desc`, characterised through `lineParts`:
when the line has at least two fields, parsing succeeds exactly when the
first field is an integer, and then the record carries the stripped
second field as code and the stripped third field (or `'-'`) as
description. -/
theorem parse_line_char (line name : String) (sep : Option Char) :
    parse_line_with_count_code_desc line name sep =
      if 2 ≤ (lineParts sep line).length then
        (pyInt? (firstField sep line)).map
          (fun n => ⟨name, n, String.mk (pyStrip ((lineParts sep line).getD 1 [])),
            String.mk (if 2 < (lineParts sep line).length then
              pyStrip ((lineParts sep line).getD 2 []) else ['-'])⟩)
      else none := by
  unfold parse_line_with_count_code_desc firstField lineParts
  by_cases hl : pyStrip line.data = []
  · simp only [hl, if_pos rfl]
    cases sep with
    | none => simp [pySplitWs_nil]
    | some c => simp [pySplitChar]
  · simp only [hl, if_neg hl]
    set parts := (match sep with
      | some sep => pySplitChar sep (pyStrip line.data)
      | none => pySplitWs 2 (pyStrip line.data)) with hparts
    by_cases h2 : parts.length < 2
    · simp only [if_pos h2]
      rw [if_neg (Nat.not_le.mpr h2)]
      simp
    · simp only [if_neg h2]
      rw [if_pos (Nat.not_lt.mp h2)]
      cases hint : pyInt? (pyStrip (parts.getD 0 [])) <;>
        simp [hint, Option.map]

/-- Parsing a flake8/ruff line succeeds exactly on well-formed lines. -/
theorem parse_line_isSome (line name : String) (sep : Option Char) :
    (parse_line_with_count_code_desc line name sep).isSome
      = lineWellFormed sep line := by
  rw [parse_line_char]
  unfold lineWellFormed
  by_cases h2 : 2 ≤ (lineParts sep line).length
  · simp [h2]
  · simp [h2]

/-- The code of a parsed flake8/ruff line is `lineCode`. -/
theorem parse_line_code (line name : String) (sep : Option Char) :
    (parse_line_with_count_code_desc line name sep).map (·.code)
      = lineCode sep line := by
  rw [parse_line_char]
  unfold lineCode lineWellFormed
  by_cases h2 : 2 ≤ (lineParts sep line).length
  · cases hint : pyInt? (firstField sep line) <;> simp [h2, hint]
  · simp [h2]

/-- Every record a flake8/ruff line parses to carries the linter name it
was parsed under, and its count is the integer of the first field. -/
theorem parse_line_fields {line name : String} {sep : Option Char}
    {r : LinterRecord} (h : parse_line_with_count_code_desc line name sep = some r) :
    r.linter = name ∧ pyInt? (firstField sep line) = some r.count := by
  rw [parse_line_char] at h
  by_cases h2 : 2 ≤ (lineParts sep line).length
  · rw [if_pos h2] at h
    cases hint : pyInt? (firstField sep line) with
    | none => rw [hint] at h; simp at h
    | some n =>
      rw [hint] at h
      simp only [Option.map_some', Option.some.injEq] at h
      subst h
      exact ⟨rfl, rfl⟩
  · rw [if_neg h2] at h
    simp at h

/-- `parse_mypy_line`, characterised through the split fields. -/
theorem parse_mypy_line_char (l : String) :
    parse_mypy_line l =
      match pySplitWs 1 (pyStrip l.data) with
      | [count_str, error_code] =>
        (pyInt? (pyStrip count_str)).map (fun n =>
          ⟨"mypy", n, String.mk (pyStrip error_code),
            mypyDescription (String.mk (pyStrip error_code))⟩)
      | _ => none := by
  unfold parse_mypy_line
  by_cases hl : pyStrip l.data = []
  · simp [hl, pySplitWs_nil]
  · simp only [hl, if_neg hl]
    cases hsplit : pySplitWs 1 (pyStrip l.data) with
    | nil => simp
    | cons a t =>
      cases t with
      | nil => simp
      | cons b t2 =>
        cases t2 with
        | nil => cases hint : pyInt? (pyStrip a) <;> simp [hint]
        | cons c t3 => simp

/-- Parsing a mypy line succeeds exactly on well-formed mypy lines. -/
theorem parse_mypy_line_isSome (line : String) :
    (parse_mypy_line line).isSome = mypyWellFormed line := by
  rw [parse_mypy_line_char]
  unfold mypyWellFormed
  cases hsplit : pySplitWs 1 (pyStrip line.data) with
  | nil => simp
  | cons a t =>
    cases t with
    | nil => simp
    | cons b t2 =>
      cases t2 with
      | nil => cases hint : pyInt? (pyStrip a) <;> simp [hint]
      | cons c t3 => simp

/-- The code of a parsed mypy line is `mypyLineCode`. -/
theorem parse_mypy_line_code (line : String) :
    (parse_mypy_line line).map (·.code) = mypyLineCode line := by
  rw [parse_mypy_line_char]
  unfold mypyLineCode
  cases hsplit : pySplitWs 1 (pyStrip line.data) with
  | nil => simp
  | cons a t =>
    cases t with
    | nil => simp
    | cons b t2 =>
      cases t2 with
      | nil => cases hint : pyInt? (pyStrip a) <;> simp [hint]
      | cons c t3 => simp

/-- Every record `parse_mypy_line` yields is tagged `mypy`. -/
theorem parse_mypy_line_linter {line : String} {r : LinterRecord}
    (h : parse_mypy_line line = some r) : r.linter = "mypy" := by
  rw [parse_mypy_line_char] at h
  cases hsplit : pySplitWs 1 (pyStrip line.data) with
  | nil => rw [hsplit] at h; simp at h
  | cons a t =>
    rw [hsplit] at h
    cases t with
    | nil => simp at h
    | cons b t2 =>
      cases t2 with
      | nil =>
        simp only [] at h
        cases hint : pyInt? (pyStrip a) with
        | none => rw [hint] at h; simp at h
        | some n =>
          rw [hint] at h
          simp only [Option.map_some', Option.some.injEq] at h
          subst h
          rfl
      | cons c t3 => simp at h

/-- The length of a `filterMap` counts the inputs the function accepts. -/
theorem length_filterMap_eq_countP (f : α → Option β) (l : List α) :
    (l.filterMap f).length = l.countP (fun a => (f a).isSome) := by
  induction l with
  | nil => rfl
  | cons a t ih =>
    cases h : f a <;>
      simp [List.filterMap_cons, List.countP_cons, h, ih]

/-- **C2.** Parsing is total and tolerant: a missing raw file yields the
empty record list, and on any present file the number of parsed records
equals the number of well-formed lines (expected field arity with an
integer first field) — malformed lines are dropped, never aborting the
file.  (The embedding is a total function, so no exception can escape by
construction; `parse_line_with_count_code_desc` maps the `ValueError` of
a non-integer first field to `none`.) -/
theorem parsing_total_and_counts_wellformed_lines :
    parse_flake8 none = [] ∧ parse_ruff none = [] ∧ parse_mypy none = [] ∧
    (∀ lines : List String,
      (parse_flake8 (some lines)).length = lines.countP (lineWellFormed none)) ∧
    (∀ lines : List String,
      (parse_ruff (some lines)).length = lines.countP (lineWellFormed (some '\t'))) ∧
    (∀ lines : List String,
      (parse_mypy (some lines)).length = lines.countP mypyWellFormed) := by
  refine ⟨rfl, rfl, rfl, ?_, ?_, ?_⟩
  · intro lines
    rw [parse_flake8, length_filterMap_eq_countP]
    exact List.countP_congr (fun l _ => by rw [parse_line_isSome])
  · intro lines
    rw [parse_ruff, length_filterMap_eq_countP]
    exact List.countP_congr (fun l _ => by rw [parse_line_isSome])
  · intro lines
    rw [parse_mypy, length_filterMap_eq_countP]
    exact List.countP_congr (fun l _ => by rw [parse_mypy_line_isSome])

/-- Decoding inverts encoding on a single record. -/
theorem recordFromJson_recordToJson (r : LinterRecord) :
    recordFromJson (recordToJson r) = some r := rfl

/-- Decoding inverts encoding on a record list. -/
theorem decodeRecords_map (l : List LinterRecord) :
    decodeRecords (l.map recordToJson) = some l := by
  induction l with
  | nil => rfl
  | cons r t ih =>
    simp [decodeRecords, recordFromJson_recordToJson, ih]

/-- **C9.** Round-trip: serialising a dataset to the persisted JSON
document shape (`write_json`) and reading it back the way
`generate_linter_report.py` does reproduces the identical dataset —
every linter's record sequence in order, every field unchanged.
(`json.dump` / `json.load` are mutually inverse on the trees of
`str`/`int` dicts and lists this program writes, so the round trip is
stated on JSON trees.) -/
theorem json_round_trip (d : LinterDataset) :
    datasetFromJson (datasetToJson d) = some d := by
  obtain ⟨f, r, m⟩ := d
  simp [datasetToJson, datasetFromJson, jGet, recordsFromJson,
    List.find?, decodeRecords_map]

/-- A successfully parsed integer with no leading minus sign is
non-negative. -/
theorem pyInt?_nonneg {s : List Char} {n : Int}
    (h : pyInt? s = some n) (hsign : s.head? ≠ some '-') : 0 ≤ n := by
  unfold pyInt? at h
  split at h
  · obtain ⟨m, -, hm⟩ := Option.map_eq_some'.mp h
    exact hm ▸ Int.ofNat_zero_le m
  · simp at hsign
  · obtain ⟨m, -, hm⟩ := Option.map_eq_some'.mp h
    exact hm ▸ Int.ofNat_zero_le m

/-- **C4 counterexample.** The line `-5 E501 x` parses (Python's `int`
accepts a sign), producing a record with the negative count `-5`; so not
every record produced from a raw input line has a non-negative count. -/
theorem negative_count_counterexample :
    parse_line_with_count_code_desc "-5 E501 x" "flake8" none
        = some ⟨"flake8", -5, "E501", "x"⟩ ∧
      ((⟨"flake8", -5, "E501", "x"⟩ : LinterRecord).count < 0) := by
  exact ⟨by decide, by decide⟩

/-- **C4 as amended.** A parsed record's count is the integer denoted by
the line's first field, hence non-negative whenever that field does not
begin with a minus sign (for flake8/ruff lines through
`parse_line_with_count_code_desc`, and for mypy lines through
`parse_mypy_line`). -/
theorem count_nonneg_unless_minus :
    (∀ (line name : String) (sep : Option Char) (r : LinterRecord),
        parse_line_with_count_code_desc line name sep = some r →
        (firstField sep line).head? ≠ some '-' → 0 ≤ r.count) ∧
    (∀ (line : String) (r : LinterRecord),
        parse_mypy_line line = some r →
        (pyStrip ((pySplitWs 1 (pyStrip line.data)).getD 0 [])).head? ≠ some '-' →
        0 ≤ r.count) := by
  constructor
  · intro line name sep r h hsign
    exact pyInt?_nonneg (parse_line_fields h).2 hsign
  · intro line r h hsign
    rw [parse_mypy_line_char] at h
    cases hsplit : pySplitWs 1 (pyStrip line.data) with
    | nil => rw [hsplit] at h; simp at h
    | cons a t =>
      rw [hsplit] at h
      cases t with
      | nil => simp at h
      | cons b t2 =>
        cases t2 with
        | nil =>
          simp only [] at h
          cases hint : pyInt? (pyStrip a) with
          | none => rw [hint] at h; simp at h
          | some n =>
            rw [hint] at h
            simp only [Option.map_some', Option.some.injEq] at h
            subst h
            rw [hsplit] at hsign
            exact pyInt?_nonneg hint hsign
        | cons c t3 => simp at h

/-- Witness for `count_nonneg_unless_minus` at the concrete lines
`5 E501 x` (flake8) and `82 no-untyped-def` (mypy). -/
theorem count_nonneg_unless_minus_witness :
    (parse_line_with_count_code_desc "5 E501 x" "flake8" none
        = some ⟨"flake8", 5, "E501", "x"⟩) ∧
    (firstField none "5 E501 x").head? ≠ some '-' ∧
    (0 ≤ (⟨"flake8", 5, "E501", "x"⟩ : LinterRecord).count) ∧
    (parse_mypy_line "82 no-untyped-def"
        = some ⟨"mypy", 82, "no-untyped-def",
            "Function is missing a type annotation"⟩) ∧
    (0 ≤ (⟨"mypy", 82, "no-untyped-def",
            "Function is missing a type annotation"⟩ : LinterRecord).count) := by
  refine ⟨by decide, by decide, ?_, by decide, ?_⟩
  · exact count_nonneg_unless_minus.1 "5 E501 x" "flake8" none _ (by decide) (by decide)
  · exact count_nonneg_unless_minus.2 "82 no-untyped-def" _ (by decide) (by decide)

/-- The codes of the records parsed from a flake8 file are exactly the
codes of its well-formed lines, in order. -/
theorem parse_flake8_codes (file : Option (List String)) :
    (parse_flake8 file).map (·.code) = (file.getD []).filterMap (lineCode none) := by
  cases file with
  | none => rfl
  | some lines =>
    show (lines.filterMap _).map _ = _
    rw [List.map_filterMap]
    have : (fun l => (parse_line_with_count_code_desc l "flake8" none).map (·.code))
        = lineCode none := funext (fun l => parse_line_code l "flake8" none)
    rw [this]
    rfl

/-- The codes of the records parsed from a ruff file are exactly the
codes of its well-formed lines, in order. -/
theorem parse_ruff_codes (file : Option (List String)) :
    (parse_ruff file).map (·.code) = (file.getD []).filterMap (lineCode (some '\t')) := by
  cases file with
  | none => rfl
  | some lines =>
    show (lines.filterMap _).map _ = _
    rw [List.map_filterMap]
    have : (fun l => (parse_line_with_count_code_desc l "ruff" (some '\t')).map (·.code))
        = lineCode (some '\t') := funext (fun l => parse_line_code l "ruff" (some '\t'))
    rw [this]
    rfl

/-- The codes of the records parsed from a mypy file are exactly the
codes of its well-formed lines, in order. -/
theorem parse_mypy_codes (file : Option (List String)) :
    (parse_mypy file).map (·.code) = (file.getD []).filterMap mypyLineCode := by
  cases file with
  | none => rfl
  | some lines =>
    show (lines.filterMap _).map _ = _
    rw [List.map_filterMap]
    have : (fun l => (parse_mypy_line l).map (·.code)) = mypyLineCode :=
      funext parse_mypy_line_code
    rw [this]
    rfl

/-- Every flake8-parsed record is tagged `flake8`. -/
theorem mem_parse_flake8_linter {file : Option (List String)} {r : LinterRecord}
    (h : r ∈ parse_flake8 file) : r.linter = "flake8" := by
  cases file with
  | none => simp [parse_flake8] at h
  | some lines =>
    obtain ⟨l, -, hl⟩ := List.mem_filterMap.mp h
    exact (parse_line_fields hl).1

/-- Every ruff-parsed record is tagged `ruff`. -/
theorem mem_parse_ruff_linter {file : Option (List String)} {r : LinterRecord}
    (h : r ∈ parse_ruff file) : r.linter = "ruff" := by
  cases file with
  | none => simp [parse_ruff] at h
  | some lines =>
    obtain ⟨l, -, hl⟩ := List.mem_filterMap.mp h
    exact (parse_line_fields hl).1

/-- Every mypy-parsed record is tagged `mypy`. -/
theorem mem_parse_mypy_linter {file : Option (List String)} {r : LinterRecord}
    (h : r ∈ parse_mypy file) : r.linter = "mypy" := by
  cases file with
  | none => simp [parse_mypy] at h
  | some lines =>
    obtain ⟨l, -, hl⟩ := List.mem_filterMap.mp h
    exact parse_mypy_line_linter hl

/-- **C3 counterexample.** A raw flake8 file listing the same code on two
well-formed lines (`1 E1 a`, `2 E1 b`) produces a dataset with two
records for the pair (`flake8`, `E1`): the converter performs no
deduplication, so uniqueness does not hold for every set of raw files. -/
theorem duplicate_code_counterexample :
    ¬ UniquePerLinterCode (convert_stats_to_json
        ⟨some ["1 E1 a", "2 E1 b"], none, none⟩) := by
  unfold UniquePerLinterCode
  decide

/-- **C3 as amended.** If, within each raw file, the well-formed lines
carry pairwise distinct codes, then the converted dataset has at most one
record per (linter, code) pair — within one linter because parsing
preserves the line codes one-to-one, and across linters because the three
parsers tag their records with three different linter names. -/
theorem unique_per_linter_code_of_distinct_codes (raw : RawStatsFiles)
    (hf : ((raw.flake8_raw.getD []).filterMap (lineCode none)).Nodup)
    (hr : ((raw.ruff_raw.getD []).filterMap (lineCode (some '\t'))).Nodup)
    (hm : ((raw.mypy_raw.getD []).filterMap mypyLineCode).Nodup) :
    UniquePerLinterCode (convert_stats_to_json raw) := by
  have hf' : ((parse_flake8 raw.flake8_raw).map (·.code)).Nodup := by
    rw [parse_flake8_codes]; exact hf
  have hr' : ((parse_ruff raw.ruff_raw).map (·.code)).Nodup := by
    rw [parse_ruff_codes]; exact hr
  have hm' : ((parse_mypy raw.mypy_raw).map (·.code)).Nodup := by
    rw [parse_mypy_codes]; exact hm
  have pf : (parse_flake8 raw.flake8_raw).Pairwise
      (fun a b => ¬(a.linter = b.linter ∧ a.code = b.code)) :=
    ((List.pairwise_map.mp hf').imp (fun h => fun hc => h hc.2))
  have pr : (parse_ruff raw.ruff_raw).Pairwise
      (fun a b => ¬(a.linter = b.linter ∧ a.code = b.code)) :=
    ((List.pairwise_map.mp hr').imp (fun h => fun hc => h hc.2))
  have pm : (parse_mypy raw.mypy_raw).Pairwise
      (fun a b => ¬(a.linter = b.linter ∧ a.code = b.code)) :=
    ((List.pairwise_map.mp hm').imp (fun h => fun hc => h hc.2))
  show (parse_flake8 raw.flake8_raw ++ parse_ruff raw.ruff_raw
      ++ parse_mypy raw.mypy_raw).Pairwise
      (fun a b => ¬(a.linter = b.linter ∧ a.code = b.code))
  rw [List.pairwise_append]
  refine ⟨?_, pm, ?_⟩
  · rw [List.pairwise_append]
    refine ⟨pf, pr, ?_⟩
    intro a ha b hb hc
    rw [mem_parse_flake8_linter ha, mem_parse_ruff_linter hb] at hc
    exact absurd hc.1 (by decide)
  · intro a ha b hb hc
    rcases List.mem_append.mp ha with ha | ha
    · rw [mem_parse_flake8_linter ha, mem_parse_mypy_linter hb] at hc
      exact absurd hc.1 (by decide)
    · rw [mem_parse_ruff_linter ha, mem_parse_mypy_linter hb] at hc
      exact absurd hc.1 (by decide)

/-- Witness for `unique_per_linter_code_of_distinct_codes` on concrete
raw files with distinct codes per file. -/
theorem unique_per_linter_code_witness :
    ((((⟨some ["1 E1 a", "2 E2 b"], some ["3\tE3\tc"], some ["4 misc"]⟩ :
        RawStatsFiles).flake8_raw.getD []).filterMap (lineCode none)).Nodup) ∧
    UniquePerLinterCode (convert_stats_to_json
      ⟨some ["1 E1 a", "2 E2 b"], some ["3\tE3\tc"], some ["4 misc"]⟩) := by
  refine ⟨by decide, ?_⟩
  exact unique_per_linter_code_of_distinct_codes _ (by decide) (by decide) (by decide)

/-- On a git repository, extracting the python version never raises. -/
theorem get_python_version_ok {env : FinderEnv} (h : is_git_repository env = true) :
    ∃ v, get_python_version_from_config env = .ok v := by
  unfold get_python_version_from_config
  rw [h]
  simp only [Bool.not_true, Bool.false_eq_true, if_false]
  split
  · exact ⟨none, rfl⟩
  · split
    · exact ⟨_, rfl⟩
    · exact ⟨none, rfl⟩

/-- On a git repository, extracting the tool revision never raises. -/
theorem get_tool_version_ok {env : FinderEnv} (pat : String)
    (h : is_git_repository env = true) :
    ∃ v, get_tool_version_from_config env pat = .ok v := by
  unfold get_tool_version_from_config
  rw [h]
  simp only [Bool.not_true, Bool.false_eq_true, if_false]
  split
  · exact ⟨none, rfl⟩
  · split
    · exact ⟨_, rfl⟩
    · exact ⟨none, rfl⟩

/-- With the config file missing, the python-version extraction on a git
repository is an absent result, not an error. -/
theorem get_python_version_none_of_no_config {env : FinderEnv}
    (hgit : is_git_repository env = true) (hcfg : env.config_present = false) :
    get_python_version_from_config env = .ok none := by
  unfold get_python_version_from_config
  rw [hgit, hcfg]
  rfl

/-- With the cache database missing, every query is an absent result. -/
theorem query_none_of_no_db {env : FinderEnv} (hdb : env.db_present = false)
    (p v : String) : query_precommit_db env p v = none := by
  unfold query_precommit_db
  rw [hdb]
  rfl

/-- **C5.** `get_tool_path` raises the not-a-git-repository error exactly
on non-git project paths — before consulting the config, the database or
the disk (the error holds for every state of those) — and on a git
repository every downstream failure is the absent result `.ok none`,
never an exception: a missing config file, a missing (or empty)
python-version value, a missing (or empty) `rev:` value, a missing cache
database, a query yielding no matching row, and a composed executable
path absent on disk each produce `.ok none`. -/
theorem tool_path_error_iff_not_git :
    ∀ (env : FinderEnv) (repo_pattern tool_name : String),
      (is_git_repository env = false →
        get_tool_path env repo_pattern tool_name = .error "Not a git repository") ∧
      (is_git_repository env = true →
        ∃ o : Option String, get_tool_path env repo_pattern tool_name = .ok o) ∧
      (is_git_repository env = true → env.config_present = false →
        get_tool_path env repo_pattern tool_name = .ok none) ∧
      (is_git_repository env = true →
        ∀ pv, get_python_version_from_config env = .ok pv → pyFalsy pv = true →
          get_tool_path env repo_pattern tool_name = .ok none) ∧
      (is_git_repository env = true →
        ∀ tv, get_tool_version_from_config env repo_pattern = .ok tv →
          pyFalsy tv = true →
          get_tool_path env repo_pattern tool_name = .ok none) ∧
      (is_git_repository env = true → env.db_present = false →
        get_tool_path env repo_pattern tool_name = .ok none) ∧
      (is_git_repository env = true →
        (∀ p v, query_precommit_db env p v = none) →
        get_tool_path env repo_pattern tool_name = .ok none) ∧
      (is_git_repository env = true →
        ∀ s t rp, get_python_version_from_config env = .ok (some s) → s ≠ "" →
          get_tool_version_from_config env repo_pattern = .ok (some t) → t ≠ "" →
          query_precommit_db env
            (if containsSub repo_pattern "/" then
              ((pySplitOnStr "/" repo_pattern).getLastD repo_pattern)
            else repo_pattern) t = some rp → rp ≠ "" →
          env.path_on_disk (rp ++ "/py_env-" ++ s ++ "/bin/" ++ tool_name) = false →
          get_tool_path env repo_pattern tool_name = .ok none) := by
  intro env repo_pattern tool_name
  refine ⟨?_, ?_, ?_, ?_, ?_, ?_, ?_, ?_⟩
  · intro h
    unfold get_tool_path
    rw [h]
    rfl
  · intro h
    unfold get_tool_path
    rw [h]
    simp only [Bool.not_true, Bool.false_eq_true, if_false]
    obtain ⟨pv, hpv⟩ := get_python_version_ok h
    simp only [hpv]
    by_cases hf : pyFalsy pv
    · exact ⟨none, by rw [if_pos hf]⟩
    · rw [if_neg hf]
      obtain ⟨tv, htv⟩ := get_tool_version_ok repo_pattern h
      simp only [htv]
      by_cases hft : pyFalsy tv
      · exact ⟨none, by rw [if_pos hft]⟩
      · rw [if_neg hft]
        split
        · exact ⟨none, rfl⟩
        · split
          · exact ⟨none, rfl⟩
          · split
            · exact ⟨_, rfl⟩
            · exact ⟨none, rfl⟩
  · intro h hcfg
    unfold get_tool_path
    rw [h]
    simp only [Bool.not_true, Bool.false_eq_true, if_false]
    simp only [get_python_version_none_of_no_config h hcfg]
    rfl
  · intro h pv hpv hfalsy
    unfold get_tool_path
    rw [h]
    simp only [Bool.not_true, Bool.false_eq_true, if_false]
    simp only [hpv]
    rw [if_pos hfalsy]
  · intro h tv htv hfalsy
    unfold get_tool_path
    rw [h]
    simp only [Bool.not_true, Bool.false_eq_true, if_false]
    obtain ⟨pv, hpv⟩ := get_python_version_ok h
    simp only [hpv]
    by_cases hf : pyFalsy pv
    · rw [if_pos hf]
    · rw [if_neg hf]
      simp only [htv]
      rw [if_pos hfalsy]
  · intro h hdb
    unfold get_tool_path
    rw [h]
    simp only [Bool.not_true, Bool.false_eq_true, if_false]
    obtain ⟨pv, hpv⟩ := get_python_version_ok h
    simp only [hpv]
    by_cases hf : pyFalsy pv
    · rw [if_pos hf]
    · rw [if_neg hf]
      obtain ⟨tv, htv⟩ := get_tool_version_ok repo_pattern h
      simp only [htv]
      by_cases hft : pyFalsy tv
      · rw [if_pos hft]
      · rw [if_neg hft]
        simp only [query_none_of_no_db hdb]
  · intro h hquery
    unfold get_tool_path
    rw [h]
    simp only [Bool.not_true, Bool.false_eq_true, if_false]
    obtain ⟨pv, hpv⟩ := get_python_version_ok h
    simp only [hpv]
    by_cases hf : pyFalsy pv
    · rw [if_pos hf]
    · rw [if_neg hf]
      obtain ⟨tv, htv⟩ := get_tool_version_ok repo_pattern h
      simp only [htv]
      by_cases hft : pyFalsy tv
      · rw [if_pos hft]
      · rw [if_neg hft]
        simp only [hquery]
  · intro h s t rp hpv hs htv ht hquery hrp hpath
    unfold get_tool_path
    rw [h]
    simp only [Bool.not_true, Bool.false_eq_true, if_false]
    simp only [hpv]
    have hfs : ¬(pyFalsy (some s) = true) := by simp [pyFalsy, hs]
    rw [if_neg hfs]
    simp only [htv]
    have hft : ¬(pyFalsy (some t) = true) := by simp [pyFalsy, ht]
    rw [if_neg hft]
    simp only [Option.getD_some]
    simp only [hquery]
    have hrp2 : (rp == "") = false := by simp [hrp]
    simp only [hrp2, Bool.false_eq_true, if_false]
    simp only [hpath, Bool.false_eq_true, if_false]

/-- Witness for `tool_path_error_iff_not_git`: concrete environments
exercising each conjunct — a non-git project raises; on git projects a
missing config, a missing python-version key, a missing `rev:` key, a
missing database, an empty result set, and a composed path absent on
disk each yield `.ok none`. -/
theorem tool_path_error_iff_not_git_witness :
    (get_tool_path ⟨false, true, ["x"], true, [], fun _ => true⟩
        "pycqa/flake8" "flake8" = .error "Not a git repository") ∧
    (∃ o : Option String, get_tool_path ⟨true, false, [], false, [], fun _ => false⟩
        "pycqa/flake8" "flake8" = .ok o) ∧
    (get_tool_path ⟨true, false, [], false, [], fun _ => false⟩
        "pycqa/flake8" "flake8" = .ok none) ∧
    (get_tool_path ⟨true, true, ["x"], false, [], fun _ => false⟩
        "pycqa/flake8" "flake8" = .ok none) ∧
    (get_tool_path ⟨true, true,
        ["default_language_version:", "  python: python3.12"],
        false, [], fun _ => false⟩ "pycqa/flake8" "flake8" = .ok none) ∧
    (get_tool_path ⟨true, true,
        ["default_language_version:", "  python: python3.12",
         "  - repo: https://github.com/pycqa/flake8", "    rev: 7.0.0"],
        false, [], fun _ => false⟩ "pycqa/flake8" "flake8" = .ok none) ∧
    (get_tool_path ⟨true, true,
        ["default_language_version:", "  python: python3.12",
         "  - repo: https://github.com/pycqa/flake8", "    rev: 7.0.0"],
        true, [], fun _ => false⟩ "pycqa/flake8" "flake8" = .ok none) ∧
    (get_tool_path ⟨true, true,
        ["default_language_version:", "  python: python3.12",
         "  - repo: https://github.com/pycqa/flake8", "    rev: 7.0.0"],
        true, [⟨"https://github.com/pycqa/flake8", "7.0.0", "/cache/repo"⟩],
        fun _ => false⟩ "pycqa/flake8" "flake8" = .ok none) := by
  refine ⟨?_, ?_, ?_, ?_, ?_, ?_, ?_, ?_⟩
  · exact (tool_path_error_iff_not_git _ "pycqa/flake8" "flake8").1 rfl
  · exact (tool_path_error_iff_not_git _ "pycqa/flake8" "flake8").2.1 rfl
  · exact (tool_path_error_iff_not_git _ "pycqa/flake8" "flake8").2.2.1 rfl rfl
  · exact (tool_path_error_iff_not_git _ "pycqa/flake8" "flake8").2.2.2.1
      rfl none rfl rfl
  · exact (tool_path_error_iff_not_git _ "pycqa/flake8" "flake8").2.2.2.2.1
      rfl none rfl rfl
  · exact (tool_path_error_iff_not_git _ "pycqa/flake8" "flake8").2.2.2.2.2.1
      rfl rfl
  · exact (tool_path_error_iff_not_git _ "pycqa/flake8" "flake8").2.2.2.2.2.2.1
      rfl (fun p v => rfl)
  · exact (tool_path_error_iff_not_git _ "pycqa/flake8" "flake8").2.2.2.2.2.2.2
      rfl "python3.12" "7.0.0" "/cache/repo" rfl (by decide) rfl (by decide)
      rfl (by decide) rfl

/-- The sorted list is descending in counts: every adjacent pair
satisfies `r1.count >= r2.count`. -/
theorem sortByCountDesc_chain (l : List LinterRecord) :
    (sortByCountDesc l).Chain' (fun a b => b.count ≤ a.count) := by
  exact (List.sorted_insertionSort countGe l).chain'

/-- Stability of the sort: records with any fixed count keep their
original relative order (as a filter equation). -/
theorem sortByCountDesc_stable (l : List LinterRecord) (c : Int) :
    (sortByCountDesc l).filter (fun r => r.count == c)
      = l.filter (fun r => r.count == c) := by
  have hsub : List.Sublist (l.filter (fun r => r.count == c)) (sortByCountDesc l) := by
    apply List.sublist_insertionSort
    · refine List.pairwise_of_forall_mem_list ?_
      intro a ha b hb
      have ha' : a.count = c := by simpa using List.of_mem_filter ha
      have hb' : b.count = c := by simpa using List.of_mem_filter hb
      unfold countGe
      rw [ha', hb']
    · exact List.filter_sublist l
  have hsub2 : List.Sublist
      ((l.filter (fun r => r.count == c)).filter (fun r => r.count == c))
      ((sortByCountDesc l).filter (fun r => r.count == c)) :=
    hsub.filter _
  rw [List.filter_filter] at hsub2
  have hidem : (l.filter fun r => (r.count == c) && (r.count == c))
      = l.filter (fun r => r.count == c) := by
    apply List.filter_congr
    intro a _
    cases h : a.count == c <;> simp [h]
  rw [hidem] at hsub2
  have hperm : List.Perm ((sortByCountDesc l).filter (fun r => r.count == c))
      (l.filter (fun r => r.count == c)) :=
    (List.perm_insertionSort countGe l).filter _
  exact (hsub2.eq_of_length hperm.length_eq.symm).symm

/-- **C7.** The combined report has exactly the three linter sections in
the fixed order Ruff, Flake8, Mypy; within every rendered table the rows
are the stable descending-by-count sort of the records (adjacent rows
satisfy `r1.count ≥ r2.count`, ties keep input order); and a linter with
no records renders the `No errors found.` placeholder instead of a
table. -/
theorem combined_report_shape :
    (∀ d : LinterDataset, create_combined_report d =
      "# Pre-commit Error Statistics\n\n"
        ++ create_individual_linter_table "Ruff" d.ruff
        ++ (SEPARATOR ++ "\n\n")
        ++ (create_individual_linter_table "Flake8" d.flake8
        ++ (SEPARATOR ++ "\n\n")
        ++ create_individual_linter_table "Mypy" d.mypy)) ∧
    (∀ d : LinterDataset, (combinedSections d).map (·.1) = ["Ruff", "Flake8", "Mypy"]) ∧
    (∀ l : List LinterRecord,
      (sortByCountDesc l).Chain' (fun a b => b.count ≤ a.count)) ∧
    (∀ (l : List LinterRecord) (c : Int),
      (sortByCountDesc l).filter (fun r => r.count == c)
        = l.filter (fun r => r.count == c)) ∧
    (∀ name : String, create_individual_linter_table name []
        = "## " ++ name ++ "\n\nNo errors found.\n\n") := by
  refine ⟨?_, fun d => rfl, sortByCountDesc_chain, sortByCountDesc_stable, fun name => rfl⟩
  intro d
  simp [create_combined_report, combinedSections, String.intercalate,
    String.intercalate.go, String.append_assoc]

/-- A code that categorises to a category name is a member of that
category's pattern set. -/
theorem mem_patternsFor_of_categorize {code nm : String}
    (h : categorize_error_for_low_risk_fixes code = some nm) :
    code ∈ patternsFor nm := by
  unfold categorize_error_for_low_risk_fixes at h
  obtain ⟨cat, hfind, hname⟩ := Option.map_eq_some'.mp h
  have hmem := List.mem_of_find?_eq_some hfind
  have hpred := List.find?_some hfind
  have hpat : code ∈ cat.patterns := by simpa using hpred
  have htable : ∀ c ∈ LOW_RISK_FIX_CATEGORIES, patternsFor c.name = c.patterns := by
    decide
  rw [← hname, htable cat hmem]
  exact hpat

/-- The names of the rendered low-risk sections follow the declaration
order of the category table (as a sublist). -/
theorem sections_order_sublist (bucket : RiskCategory → List LinterRecord) :
    ∀ L : List RiskCategory,
      List.Sublist
        (((L.map (fun cat => (cat.name, bucket cat))).filterMap
          (fun nb => if nb.2 = [] then none
            else some (nb.1, sortByCountDesc nb.2))).map (·.1))
        (L.map (·.name)) := by
  intro L
  induction L with
  | nil => exact List.nil_sublist _
  | cons cat L ih =>
    simp only [List.map_cons, List.filterMap_cons]
    by_cases h : bucket cat = []
    · rw [if_pos (by simpa using h)]
      exact ih.cons cat.name
    · rw [if_neg (by simpa using h)]
      simpa using ih.cons₂ cat.name

/-- **C8.** In the low-risk report: every rendered section is non-empty
(a category with no matching record yields no heading), every rendered
row's code belongs to the pattern set of its section's category, rows
are drawn only from the ruff and flake8 sequences (never from mypy's), a
record whose code matches no category appears in no section, and the
sections follow the declaration order of the category table. -/
theorem low_risk_report_properties :
    ∀ d : LinterDataset,
      (∀ sec ∈ lowRiskSections d, sec.2 ≠ [] ∧
        (∀ r ∈ sec.2, (r ∈ d.ruff ∨ r ∈ d.flake8) ∧ r.code ∈ patternsFor sec.1)) ∧
      (∀ r : LinterRecord, categorize_error_for_low_risk_fixes r.code = none →
        ∀ sec ∈ lowRiskSections d, r ∉ sec.2) ∧
      List.Sublist ((lowRiskSections d).map (·.1))
        (LOW_RISK_FIX_CATEGORIES.map (·.name)) := by
  intro d
  refine ⟨?_, ?_, ?_⟩
  · intro sec hsec
    obtain ⟨nb, hnb, hf⟩ := List.mem_filterMap.mp hsec
    obtain ⟨cat, hcat, hg⟩ := List.mem_map.mp hnb
    by_cases hempty : nb.2 = []
    · rw [if_pos hempty] at hf
      exact absurd hf (by simp)
    · rw [if_neg hempty] at hf
      obtain rfl := Option.some.inj hf
      constructor
      · intro hnil
        have : nb.2.length = 0 := by
          simpa [sortByCountDesc] using congrArg List.length hnil
        exact hempty (List.eq_nil_of_length_eq_zero this)
      · intro r hr
        have hr' : r ∈ nb.2 := (List.mem_insertionSort countGe).mp hr
        have hfields : nb.2 = (d.ruff ++ d.flake8).filter
            (fun e => categorize_error_for_low_risk_fixes e.code == some cat.name) := by
          rw [← hg]
        rw [hfields] at hr'
        have hmem := List.mem_of_mem_filter hr'
        have hpred := List.of_mem_filter hr'
        have hcatr : categorize_error_for_low_risk_fixes r.code = some cat.name :=
          by simpa using hpred
        have hfst : nb.1 = cat.name := by rw [← hg]
        constructor
        · exact (List.mem_append.mp hmem).symm.symm.elim Or.inl Or.inr
        · rw [hfst]
          exact mem_patternsFor_of_categorize hcatr
  · intro r hnone sec hsec hr
    obtain ⟨nb, hnb, hf⟩ := List.mem_filterMap.mp hsec
    obtain ⟨cat, hcat, hg⟩ := List.mem_map.mp hnb
    by_cases hempty : nb.2 = []
    · rw [if_pos hempty] at hf
      exact absurd hf (by simp)
    · rw [if_neg hempty] at hf
      obtain rfl := Option.some.inj hf
      have hr' : r ∈ nb.2 := (List.mem_insertionSort countGe).mp hr
      have hfields : nb.2 = (d.ruff ++ d.flake8).filter
          (fun e => categorize_error_for_low_risk_fixes e.code == some cat.name) := by
        rw [← hg]
      rw [hfields] at hr'
      have hpred := List.of_mem_filter hr'
      have : categorize_error_for_low_risk_fixes r.code = some cat.name := by
        simpa using hpred
      rw [hnone] at this
      exact absurd this (by simp)
  · exact sections_order_sublist
      (fun cat => (d.ruff ++ d.flake8).filter
        (fun e => categorize_error_for_low_risk_fixes e.code == some cat.name))
      LOW_RISK_FIX_CATEGORIES

/-- Witness for `low_risk_report_properties` on a concrete dataset with
one ruff `E203` record: the single rendered section is the
Formatting/Style one, its row's code is in that pattern set, and an
uncategorised record appears nowhere. -/
theorem low_risk_report_properties_witness :
    (("Formatting/Style", [(⟨"ruff", 5, "E203", "w"⟩ : LinterRecord)])
        ∈ lowRiskSections ⟨[], [⟨"ruff", 5, "E203", "w"⟩], []⟩) ∧
    (("Formatting/Style", [(⟨"ruff", 5, "E203", "w"⟩ : LinterRecord)]).2 ≠ [] ∧
      (∀ r ∈ ("Formatting/Style", [(⟨"ruff", 5, "E203", "w"⟩ : LinterRecord)]).2,
        (r ∈ (⟨[], [⟨"ruff", 5, "E203", "w"⟩], []⟩ : LinterDataset).ruff ∨
         r ∈ (⟨[], [⟨"ruff", 5, "E203", "w"⟩], []⟩ : LinterDataset).flake8) ∧
        r.code ∈ patternsFor ("Formatting/Style",
          [(⟨"ruff", 5, "E203", "w"⟩ : LinterRecord)]).1)) ∧
    ((⟨"ruff", 1, "ZZZ", "z"⟩ : LinterRecord)
        ∉ ("Formatting/Style", [(⟨"ruff", 5, "E203", "w"⟩ : LinterRecord)]).2) := by
  refine ⟨by decide, ?_, ?_⟩
  · exact (low_risk_report_properties ⟨[], [⟨"ruff", 5, "E203", "w"⟩], []⟩).1
      ("Formatting/Style", [⟨"ruff", 5, "E203", "w"⟩]) (by decide)
  · exact (low_risk_report_properties ⟨[], [⟨"ruff", 5, "E203", "w"⟩], []⟩).2.1
      ⟨"ruff", 1, "ZZZ", "z"⟩ (by decide)
      ("Formatting/Style", [⟨"ruff", 5, "E203", "w"⟩]) (by decide)

/-- A whitespace split with `maxsplit = m` yields at most `m + 1` parts. -/
theorem pySplitWs_length_le : ∀ (m : Nat) (s : List Char),
    (pySplitWs m s).length ≤ m + 1 := by
  intro m
  induction m with
  | zero =>
    intro s
    rw [pySplitWs]
    cases h : s.dropWhile isPyWs <;> simp
  | succ m ih =>
    intro s
    rw [pySplitWs]
    cases h : s.dropWhile isPyWs with
    | nil => simp
    | cons c rest =>
      simp only [List.length_cons]
      have := ih ((c :: rest).dropWhile (fun d => !isPyWs d))
      omega

/-- Unfolding `pySplitWs` on an all-whitespace (or empty) input. -/
theorem pySplitWs_eq_nil {s : List Char} (m : Nat)
    (h : s.dropWhile isPyWs = []) : pySplitWs m s = [] := by
  rw [pySplitWs, h]

/-- Unfolding `pySplitWs 0` when a token remains: the whole remainder. -/
theorem pySplitWs_zero_cons {s : List Char} {c : Char} {rest : List Char}
    (h : s.dropWhile isPyWs = c :: rest) : pySplitWs 0 s = [c :: rest] := by
  rw [pySplitWs, h]

/-- Unfolding `pySplitWs (m+1)` when a token remains. -/
theorem pySplitWs_succ_cons {s : List Char} {c : Char} {rest : List Char}
    (m : Nat) (h : s.dropWhile isPyWs = c :: rest) :
    pySplitWs (m + 1) s = (c :: rest).takeWhile (fun d => !isPyWs d) ::
      pySplitWs m ((c :: rest).dropWhile (fun d => !isPyWs d)) := by
  rw [pySplitWs, h]

/-- When the whitespace split is cut off by `maxsplit`, its final part is
a suffix of the input: the entire remainder of the line, not re-split. -/
theorem pySplitWs_last_suffix : ∀ (m : Nat) (s : List Char),
    m + 1 ≤ (pySplitWs m s).length →
    List.IsSuffix ((pySplitWs m s).getD m []) s := by
  intro m
  induction m with
  | zero =>
    intro s hlen
    cases h : s.dropWhile isPyWs with
    | nil => rw [pySplitWs_eq_nil 0 h] at hlen; simp at hlen
    | cons c rest =>
      rw [pySplitWs_zero_cons h, List.getD_cons_zero]
      exact h ▸ List.dropWhile_suffix isPyWs
  | succ m ih =>
    intro s hlen
    cases h : s.dropWhile isPyWs with
    | nil => rw [pySplitWs_eq_nil (m + 1) h] at hlen; simp at hlen
    | cons c rest =>
      rw [pySplitWs_succ_cons m h] at hlen ⊢
      simp only [List.length_cons] at hlen
      have htail := ih ((c :: rest).dropWhile (fun d => !isPyWs d)) (by omega)
      rw [List.getD_cons_succ]
      exact htail.trans ((List.dropWhile_suffix _).trans (h ▸ List.dropWhile_suffix isPyWs))

/-- Splitting on a separator character distributes over a separator-free
prefix. -/
theorem pySplitChar_append {sep : Char} {a : List Char} (rest : List Char)
    (h : sep ∉ a) :
    pySplitChar sep (a ++ sep :: rest) = a :: pySplitChar sep rest := by
  induction a with
  | nil => simp [pySplitChar]
  | cons c a ih =>
    have hc : ¬(c = sep) := fun hcs => h (hcs ▸ List.mem_cons_self c a)
    have ih' := ih (fun hm => h (List.mem_cons_of_mem c hm))
    show pySplitChar sep (c :: (a ++ sep :: rest)) = (c :: a) :: pySplitChar sep rest
    rw [pySplitChar, if_neg hc, ih']

/-- **C1 counterexample.** The ruff raw line `5\tE501\ta\tb` parses to a
record whose description is only the third tab field `a`, not the whole
remainder `a\tb` after the first two fields: `str.split('\t')` has no
`maxsplit`, so a description containing the separator is truncated. -/
theorem ruff_description_truncated_counterexample :
    parse_line_with_count_code_desc "5\tE501\ta\tb" "ruff" (some '\t')
        = some ⟨"ruff", 5, "E501", "a"⟩ ∧
      ("a" : String) ≠ "a\tb" :=
  ⟨by decide, by decide⟩

/-- **C1 as amended.** For flake8 (whitespace-separated) lines the claim
holds: the line is split at most twice (at most three fields), the
description is the stripped third field, and that field is the entire
remainder of the stripped line (a suffix — never re-split or truncated);
for either parser a line with exactly two fields gets description `-`;
but for ruff (tab-separated) lines every tab splits, and the description
is only the third tab field: text beyond a further tab is dropped. -/
theorem description_semantics :
    (∀ line : String, (lineParts none line).length ≤ 3) ∧
    (∀ (line name : String) (r : LinterRecord),
        parse_line_with_count_code_desc line name none = some r →
        2 < (lineParts none line).length →
        r.description = String.mk (pyStrip ((lineParts none line).getD 2 [])) ∧
        List.IsSuffix ((lineParts none line).getD 2 []) (pyStrip line.data)) ∧
    (∀ (line name : String) (sep : Option Char) (r : LinterRecord),
        parse_line_with_count_code_desc line name sep = some r →
        (lineParts sep line).length = 2 →
        r.description = "-") ∧
    (∀ (a b c d : List Char) (name : String) (r : LinterRecord),
        '\t' ∉ a → '\t' ∉ b → '\t' ∉ c →
        pyStrip (a ++ '\t' :: (b ++ '\t' :: (c ++ '\t' :: d)))
          = a ++ '\t' :: (b ++ '\t' :: (c ++ '\t' :: d)) →
        parse_line_with_count_code_desc
          (String.mk (a ++ '\t' :: (b ++ '\t' :: (c ++ '\t' :: d))))
          name (some '\t') = some r →
        r.description = String.mk (pyStrip c)) := by
  refine ⟨?_, ?_, ?_, ?_⟩
  · intro line
    exact pySplitWs_length_le 2 (pyStrip line.data)
  · intro line name r h h2
    rw [parse_line_char, if_pos (le_of_lt h2)] at h
    cases hint : pyInt? (firstField none line) with
    | none => rw [hint] at h; simp at h
    | some n =>
      rw [hint] at h
      simp only [Option.map_some', Option.some.injEq] at h
      subst h
      refine ⟨by simp [h2], ?_⟩
      exact pySplitWs_last_suffix 2 (pyStrip line.data) (by exact h2)
  · intro line name sep r h h2
    rw [parse_line_char, if_pos (by omega)] at h
    cases hint : pyInt? (firstField sep line) with
    | none => rw [hint] at h; simp at h
    | some n =>
      rw [hint] at h
      simp only [Option.map_some', Option.some.injEq] at h
      subst h
      simp [h2]
  · intro a b c d name r ha hb hc hstrip h
    have hparts : lineParts (some '\t')
        (String.mk (a ++ '\t' :: (b ++ '\t' :: (c ++ '\t' :: d))))
        = a :: b :: c :: pySplitChar '\t' d := by
      show pySplitChar '\t' (pyStrip (a ++ '\t' :: (b ++ '\t' :: (c ++ '\t' :: d))))
          = _
      rw [hstrip, pySplitChar_append _ ha, pySplitChar_append _ hb,
        pySplitChar_append _ hc]
    have h2 : 2 < (lineParts (some '\t')
        (String.mk (a ++ '\t' :: (b ++ '\t' :: (c ++ '\t' :: d))))).length := by
      rw [hparts]; simp
    rw [parse_line_char, if_pos (le_of_lt h2)] at h
    cases hint : pyInt? (firstField (some '\t')
        (String.mk (a ++ '\t' :: (b ++ '\t' :: (c ++ '\t' :: d))))) with
    | none => rw [hint] at h; simp at h
    | some n =>
      rw [hint] at h
      simp only [Option.map_some', Option.some.injEq] at h
      subst h
      simp [h2, hparts]

/-- Witness for `description_semantics` at the concrete lines
`3 E111 a b` (flake8, whole remainder kept), `12 E1` (missing
description defaults to `-`) and `5\tE501\tx y\tzzz` (ruff, third tab
field only). -/
theorem description_semantics_witness :
    ((lineParts none "3 E111 a b").length ≤ 3) ∧
    (parse_line_with_count_code_desc "3 E111 a b" "flake8" none
        = some ⟨"flake8", 3, "E111", "a b"⟩) ∧
    (2 < (lineParts none "3 E111 a b").length) ∧
    ((⟨"flake8", 3, "E111", "a b"⟩ : LinterRecord).description
        = String.mk (pyStrip ((lineParts none "3 E111 a b").getD 2 [])) ∧
      List.IsSuffix ((lineParts none "3 E111 a b").getD 2 [])
        (pyStrip "3 E111 a b".data)) ∧
    (parse_line_with_count_code_desc "12 E1" "flake8" none
        = some ⟨"flake8", 12, "E1", "-"⟩) ∧
    ((⟨"flake8", 12, "E1", "-"⟩ : LinterRecord).description = "-") ∧
    (parse_line_with_count_code_desc "5\tE501\tx y\tzzz" "ruff" (some '\t')
        = some ⟨"ruff", 5, "E501", "x y"⟩) ∧
    ((⟨"ruff", 5, "E501", "x y"⟩ : LinterRecord).description
        = String.mk (pyStrip "x y".data)) := by
  refine ⟨description_semantics.1 "3 E111 a b", by decide, by decide, ?_, by decide,
    ?_, by decide, ?_⟩
  · exact description_semantics.2.1 "3 E111 a b" "flake8" _ (by decide) (by decide)
  · exact description_semantics.2.2.1 "12 E1" "flake8" none _ (by decide) (by decide)
  · have := description_semantics.2.2.2 "5".data "E501".data "x y".data "zzz".data
      "ruff" ⟨"ruff", 5, "E501", "x y"⟩ (by decide) (by decide) (by decide)
      (by decide) (by decide)
    exact this

/-- A whitespace character is not a digit, an underscore or a sign. -/
theorem isPyWs_char_facts {c : Char} (h : isPyWs c = true) :
    c.isDigit = false ∧ c ≠ '_' ∧ c ≠ '+' ∧ c ≠ '-' := by
  have h6 : c = ' ' ∨ c = '\t' ∨ c = '\n' ∨ c = '\r' ∨ c = '\x0b' ∨ c = '\x0c' := by
    simpa [isPyWs, or_assoc] using h
  rcases h6 with h | h | h | h | h | h <;> subst h <;> exact ⟨rfl, by decide, by decide, by decide⟩

/-- All characters accepted by the digit-part parser are digits or
underscores. -/
theorem pyDigits_chars : ∀ (s : List Char) (acc : Nat) (b : Bool) (n : Nat),
    pyDigits acc b s = some n → ∀ x ∈ s, x.isDigit = true ∨ x = '_' := by
  intro s
  induction s with
  | nil => intro acc b n _ x hx; simp at hx
  | cons c t ih =>
    intro acc b n h x hx
    rw [pyDigits] at h
    rcases List.mem_cons.mp hx with rfl | hxt
    · by_cases hd : x.isDigit
      · exact Or.inl hd
      · rw [if_neg hd] at h
        by_cases hu : x = '_'
        · exact Or.inr hu
        · rw [if_neg hu] at h
          simp at h
    · by_cases hd : c.isDigit
      · rw [if_pos hd] at h
        exact ih _ _ _ h x hxt
      · rw [if_neg hd] at h
        by_cases hu : c = '_'
        · rw [if_pos hu] at h
          cases b with
          | true => simp at h
          | false => exact ih _ _ _ (by simpa using h) x hxt
        · rw [if_neg hu] at h
          simp at h

/-- No character of a string accepted by `pyInt?` is whitespace. -/
theorem pyInt?_no_ws {s : List Char} {n : Int} (h : pyInt? s = some n) :
    ∀ x ∈ s, isPyWs x = false := by
  intro x hx
  by_contra habs
  have hws : isPyWs x = true := by
    cases hc : isPyWs x
    · exact absurd hc habs
    · rfl
  obtain ⟨hdig, hund, hplus, hminus⟩ := isPyWs_char_facts hws
  unfold pyInt? at h
  split at h
  · rcases List.mem_cons.mp hx with rfl | hxt
    · exact hplus rfl
    · obtain ⟨m, hm, -⟩ := Option.map_eq_some'.mp h
      rcases pyDigits_chars _ _ _ _ hm x hxt with hd | hu
      · rw [hdig] at hd; exact Bool.false_ne_true hd
      · exact hund hu
  · rcases List.mem_cons.mp hx with rfl | hxt
    · exact hminus rfl
    · obtain ⟨m, hm, -⟩ := Option.map_eq_some'.mp h
      rcases pyDigits_chars _ _ _ _ hm x hxt with hd | hu
      · rw [hdig] at hd; exact Bool.false_ne_true hd
      · exact hund hu
  · obtain ⟨m, hm, -⟩ := Option.map_eq_some'.mp h
    rcases pyDigits_chars _ _ _ _ hm x hx with hd | hu
    · rw [hdig] at hd; exact Bool.false_ne_true hd
    · exact hund hu

/-- `pyInt?` rejects the empty string. -/
theorem pyInt?_ne_nil {n : Int} (h : pyInt? [] = some n) : False := by
  simp [pyInt?, pyDigits] at h

/-- `takeWhile` runs through a prefix every character of which satisfies
the predicate. -/
theorem takeWhile_append_all {p : Char → Bool} : ∀ {xs ys : List Char},
    (∀ x ∈ xs, p x = true) → (xs ++ ys).takeWhile p = xs ++ ys.takeWhile p := by
  intro xs
  induction xs with
  | nil => intro ys _; rfl
  | cons c t ih =>
    intro ys h
    have hc := h c (List.mem_cons_self c t)
    simp only [List.cons_append, List.takeWhile_cons_of_pos hc]
    rw [ih (fun x hx => h x (List.mem_cons_of_mem c hx))]

/-- `dropWhile` consumes a prefix every character of which satisfies the
predicate. -/
theorem dropWhile_append_all {p : Char → Bool} : ∀ {xs ys : List Char},
    (∀ x ∈ xs, p x = true) → (xs ++ ys).dropWhile p = ys.dropWhile p := by
  intro xs
  induction xs with
  | nil => intro ys _; rfl
  | cons c t ih =>
    intro ys h
    have hc := h c (List.mem_cons_self c t)
    simp only [List.cons_append, List.dropWhile_cons_of_pos hc]
    exact ih (fun x hx => h x (List.mem_cons_of_mem c hx))

/-- A string whose first and last characters are not whitespace is fixed
by `pyStrip`. -/
theorem pyStrip_eq_self {l : List Char}
    (h1 : ∀ c, l.head? = some c → isPyWs c = false)
    (h2 : ∀ c, l.getLast? = some c → isPyWs c = false) :
    pyStrip l = l := by
  unfold pyStrip
  have hd : l.dropWhile isPyWs = l := by
    cases l with
    | nil => rfl
    | cons c t =>
      have hneg : ¬(isPyWs c = true) := by simp [h1 c rfl]
      rw [List.dropWhile_cons_of_neg hneg]
  rw [hd]
  cases hrev : l.reverse with
  | nil =>
    have hnil : l = [] := List.reverse_eq_nil_iff.mp hrev
    subst hnil
    rfl
  | cons d t =>
    have hdlast : isPyWs d = false := by
      apply h2 d
      rw [← List.head?_reverse, hrev]
      rfl
    have hneg : ¬(isPyWs d = true) := by simp [hdlast]
    rw [List.dropWhile_cons_of_neg hneg, ← hrev, List.reverse_reverse]

/-- Splitting once on whitespace: a whitespace-free token, a whitespace
run, then a remainder opening with a non-whitespace character yield
exactly the token and the whole remainder. -/
theorem pySplitWs_one_token (c0 w0 d0 : Char) (ct wt dt : List Char)
    (hc0 : isPyWs c0 = false) (hct : ∀ x ∈ ct, isPyWs x = false)
    (hw0 : isPyWs w0 = true) (hwt : ∀ x ∈ wt, isPyWs x = true)
    (hd0 : isPyWs d0 = false) :
    pySplitWs 1 (c0 :: (ct ++ w0 :: (wt ++ d0 :: dt))) = [c0 :: ct, d0 :: dt] := by
  have hdropL : (c0 :: (ct ++ w0 :: (wt ++ d0 :: dt))).dropWhile isPyWs
      = c0 :: (ct ++ w0 :: (wt ++ d0 :: dt))  := by
    have hneg : ¬(isPyWs c0 = true) := by simp [hc0]
    rw [List.dropWhile_cons_of_neg hneg]
  rw [pySplitWs_succ_cons 0 hdropL]
  have htake : List.takeWhile (fun d => !isPyWs d) (c0 :: (ct ++ w0 :: (wt ++ d0 :: dt)))
      = c0 :: ct := by
    simp only [List.takeWhile_cons, hc0, Bool.not_false, if_true]
    rw [takeWhile_append_all (fun x hx => by simp [hct x hx])]
    simp only [List.takeWhile_cons, hw0, Bool.not_true, if_false]
    simp
  have hdropP : List.dropWhile (fun d => !isPyWs d) (c0 :: (ct ++ w0 :: (wt ++ d0 :: dt)))
      = w0 :: (wt ++ d0 :: dt) := by
    simp only [List.dropWhile_cons, hc0, Bool.not_false, if_true]
    rw [dropWhile_append_all (fun x hx => by simp [hct x hx])]
    simp [List.dropWhile_cons, hw0]
  rw [htake, hdropP]
  have hdrop3 : (w0 :: (wt ++ d0 :: dt)).dropWhile isPyWs = d0 :: dt := by
    simp only [List.dropWhile_cons, hw0, if_true]
    rw [dropWhile_append_all hwt]
    simp [List.dropWhile_cons, hd0]
  rw [pySplitWs_zero_cons hdrop3]

/-- **C10.** A mypy raw line made of an integer first field, a whitespace
run, and an arbitrary non-empty stripped code text — which may itself
contain internal whitespace — is accepted: the line is split only once,
everything after the first field becomes the code, and the description is
the static-table lookup; a code absent from `MYPY_DESCRIPTIONS` receives
`-`. -/
theorem mypy_splits_once :
    (∀ (count ws code : List Char) (n : Int),
        pyInt? count = some n →
        ws ≠ [] → (∀ x ∈ ws, isPyWs x = true) →
        code ≠ [] →
        (∀ c, code.head? = some c → isPyWs c = false) →
        (∀ c, code.getLast? = some c → isPyWs c = false) →
        parse_mypy (some [String.mk (count ++ (ws ++ code))])
          = [⟨"mypy", n, String.mk code, mypyDescription (String.mk code)⟩]) ∧
    (∀ code : String, (∀ kv ∈ MYPY_DESCRIPTIONS, kv.1 ≠ code) →
        mypyDescription code = "-") := by
  constructor
  · intro count ws code n hcount hwsne hws hcne hchead hclast
    obtain ⟨c0, ct, rfl⟩ := List.exists_cons_of_ne_nil
      (fun h : count = [] => pyInt?_ne_nil (h ▸ hcount))
    obtain ⟨w0, wt, rfl⟩ := List.exists_cons_of_ne_nil hwsne
    obtain ⟨d0, dt, rfl⟩ := List.exists_cons_of_ne_nil hcne
    have hcountNoWs := pyInt?_no_ws hcount
    have hc0 : isPyWs c0 = false := hcountNoWs c0 (List.mem_cons_self c0 ct)
    have hct : ∀ x ∈ ct, isPyWs x = false :=
      fun x hx => hcountNoWs x (List.mem_cons_of_mem c0 hx)
    have hd0 : isPyWs d0 = false := hchead d0 rfl
    have hw0 : isPyWs w0 = true := hws w0 (List.mem_cons_self w0 wt)
    have hwt : ∀ x ∈ wt, isPyWs x = true :=
      fun x hx => hws x (List.mem_cons_of_mem w0 hx)
    have hLnorm : (c0 :: ct) ++ ((w0 :: wt) ++ (d0 :: dt))
        = c0 :: (ct ++ w0 :: (wt ++ d0 :: dt)) := by
      simp
    have hstrip : pyStrip ((c0 :: ct) ++ ((w0 :: wt) ++ (d0 :: dt)))
        = (c0 :: ct) ++ ((w0 :: wt) ++ (d0 :: dt)) := by
      apply pyStrip_eq_self
      · intro c hc
        simp only [List.cons_append, List.head?_cons, Option.some.injEq] at hc
        rw [← hc]
        exact hc0
      · intro c hc
        have e1 : ((c0 :: ct) ++ ((w0 :: wt) ++ (d0 :: dt))).getLast?
            = ((w0 :: wt) ++ (d0 :: dt)).getLast? :=
          List.getLast?_append_of_ne_nil _ (by simp)
        have e2 : ((w0 :: wt) ++ (d0 :: dt)).getLast? = (d0 :: dt).getLast? :=
          List.getLast?_append_of_ne_nil _ (by simp)
        rw [e1, e2] at hc
        exact hclast c hc
    have hstripCount : pyStrip (c0 :: ct) = c0 :: ct := by
      apply pyStrip_eq_self
      · intro c hc
        simp only [List.head?_cons, Option.some.injEq] at hc
        rw [← hc]; exact hc0
      · intro c hc
        exact hcountNoWs c (List.mem_of_getLast?_eq_some hc)
    have hstripCode : pyStrip (d0 :: dt) = d0 :: dt :=
      pyStrip_eq_self hchead hclast
    have hmatch : pySplitWs 1
        (pyStrip (String.mk ((c0 :: ct) ++ ((w0 :: wt) ++ (d0 :: dt)))).data)
        = [c0 :: ct, d0 :: dt] := by
      show pySplitWs 1 (pyStrip ((c0 :: ct) ++ ((w0 :: wt) ++ (d0 :: dt)))) = _
      rw [hstrip, hLnorm]
      exact pySplitWs_one_token c0 w0 d0 ct wt dt hc0 hct hw0 hwt hd0
    show List.filterMap parse_mypy_line [String.mk _] = _
    rw [List.filterMap_cons, parse_mypy_line_char, hmatch]
    simp only [hstripCount, hstripCode, hcount, Option.map_some', List.filterMap_nil]
  · intro code h
    unfold mypyDescription
    rw [List.find?_eq_none.mpr]
    · rfl
    · intro kv hkv
      simpa using h kv hkv

/-- Witness for `mypy_splits_once`: the line `82 foo bar` is accepted
with code `foo bar` (internal space preserved) and, `foo bar` being
absent from the table, description `-`. -/
theorem mypy_splits_once_witness :
    parse_mypy (some [String.mk ("82".data ++ (" ".data ++ "foo bar".data))])
        = [⟨"mypy", 82, String.mk "foo bar".data,
            mypyDescription (String.mk "foo bar".data)⟩] ∧
    mypyDescription "foo bar" = "-" := by
  constructor
  · exact mypy_splits_once.1 "82".data " ".data "foo bar".data 82
      (by decide) (by decide) (by decide) (by decide) (by decide) (by decide)
  · exact mypy_splits_once.2 "foo bar" (by decide)

/-- The value extracted from a config line carrying the `python:` subkey
(`line.split('python:')[1].strip()`). -/
def pythonValueOf (line : String) : String :=
  pyStripStr ((pySplitOnStr "python:" line).getD 1 "")

/-- Modelled from the spec: the claimed extraction — the first occurrence
of the `default_language_version` key together with the **two** lines of
context following it, returning the value of the first `python:` subkey
found in that three-line window. -/
def spec_python_version_two_lines (lines : List String) : Option String :=
  match lines.findIdx? (fun l => containsSub l "default_language_version:") with
  | some i =>
    (((lines.drop i).take 3).find? (fun l => containsSub l "python:")).map
      pythonValueOf
  | none => none

/-- Modelled from the spec as amended: a single scan that carries whether
the previous line contained the key; a line is in the `grep -A 1` window
exactly when it or the line directly above contains
`default_language_version:`, and the value of the first `python:` subkey
in such a line is returned. -/
def spec_python_version_one_line : Bool → List String → Option String
  | _, [] => none
  | prev, l :: rest =>
    let m := containsSub l "default_language_version:"
    if (m || prev) && containsSub l "python:" then some (pythonValueOf l)
    else spec_python_version_one_line m rest

/-- The `grep -A 1` output scanned for `python:` agrees with the
single-pass window scan (`due = 1` exactly when the previous line
matched). -/
theorem grepA_one_find_eq : ∀ (lines : List String) (b : Bool),
    ((grepA 1 "default_language_version:" (cond b 1 0) lines).find?
        (fun line => containsSub line "python:")).map pythonValueOf
      = spec_python_version_one_line b lines := by
  intro lines
  induction lines with
  | nil => intro b; cases b <;> rfl
  | cons l rest ih =>
    intro b
    rw [grepA, spec_python_version_one_line]
    by_cases hm : containsSub l "default_language_version:" = true
    · rw [if_pos hm, List.find?]
      by_cases hp : containsSub l "python:" = true
      · simp only [hp, hm, Bool.true_or, Bool.true_and, if_true, Option.map_some']
      · simp only [hp, hm, Bool.true_or, Bool.true_and, Bool.false_eq_true, if_false]
        exact ih true
    · rw [if_neg hm]
      have hm' : containsSub l "default_language_version:" = false :=
        Bool.not_eq_true _ ▸ hm
      cases b with
      | true =>
        rw [if_pos (by decide), List.find?]
        by_cases hp : containsSub l "python:" = true
        · simp only [hp, hm', Bool.false_or, Bool.true_and, if_true, Option.map_some']
        · simp only [hp, hm', Bool.false_or, Bool.true_and, Bool.false_eq_true, if_false]
          exact ih false
      | false =>
        rw [if_neg (by decide)]
        simp only [hm', Bool.false_or, Bool.false_and, Bool.false_eq_true, if_false]
        exact ih false

/-- **C6 counterexample.** On the config
`["default_language_version:", "x", "  python: python3.12"]` the
`python:` subkey sits two lines after the key: the claimed two-line
window would return `python3.12`, but the locator greps with `-A 1` (one
line of context) and finds nothing. -/
theorem python_version_window_counterexample :
    get_python_version_from_config
        ⟨true, true, ["default_language_version:", "x", "  python: python3.12"],
          false, [], fun _ => false⟩
        = .ok none ∧
    spec_python_version_two_lines
        ["default_language_version:", "x", "  python: python3.12"]
        = some "python3.12" ∧
    (some "python3.12" : Option String) ≠ none := by
  refine ⟨rfl, by decide, by decide⟩

/-- **C6 as amended.** On a git repository with a config file present,
the locator examines every occurrence of the `default_language_version`
key together with **one** line of context following it (`grep -A 1`),
and returns the value of the first `python:` subkey found in that
output, or an absent result if none is found there. -/
theorem python_version_one_line_window :
    ∀ env : FinderEnv, is_git_repository env = true → env.config_present = true →
      get_python_version_from_config env
        = .ok (spec_python_version_one_line false env.config_lines) := by
  intro env hgit hcfg
  unfold get_python_version_from_config
  rw [hgit, hcfg]
  simp only [Bool.not_true, Bool.false_eq_true, if_false]
  have h := grepA_one_find_eq env.config_lines false
  rw [Bool.cond_false] at h
  unfold grepAfterContext
  cases hfind : (grepA 1 "default_language_version:" 0 env.config_lines).find?
      (fun line => containsSub line "python:") with
  | none =>
    rw [hfind] at h
    simp only [Option.map_none'] at h
    rw [← h]
  | some line =>
    rw [hfind] at h
    simp only [Option.map_some'] at h
    rw [← h]
    rfl

/-- Witness for `python_version_one_line_window` on a concrete config
where the `python:` subkey is on the line directly after the key. -/
theorem python_version_one_line_window_witness :
    is_git_repository ⟨true, true,
        ["default_language_version:", "  python: python3.12"],
        false, [], fun _ => false⟩ = true ∧
    get_python_version_from_config ⟨true, true,
        ["default_language_version:", "  python: python3.12"],
        false, [], fun _ => false⟩
      = .ok (spec_python_version_one_line false
          ["default_language_version:", "  python: python3.12"]) := by
  refine ⟨rfl, ?_⟩
  exact python_version_one_line_window _ rfl rfl

end BashConfig
